import Mathlib

/-!
# Verification of the Nexmosphere serial-bridge server

Shallow embedding of the core of `src/index.js` / `src/unnamed/part_000`:
the rate-limited command dispatcher (`processQueue` / `queueCommand`), the
direct status-check write path (`sendCommand` / `checkRFIDStatus`), the
WebSocket broadcast of inbound device lines, the sticker-status parser
`getStickers`, and the HTTP handler logic of `POST /send-command` and
`GET /check-rfid-status`.

JavaScript strings are embedded as `List Char` (`JSString`); the JS string
builtins used by the source (`split` with a one-character separator,
`replace` with a one-character pattern, `trim`, `endsWith "\r\n"`,
`includes`) are modelled by the `splitOnChar`, `replaceFirst`, `jsTrim`,
`jsEndsWith`, and `List.contains` functions below.
-/

/-- JS strings, embedded as lists of characters. -/
abbrev JSString := List Char

/-- The 2-byte Nexmosphere line terminator `"\r\n"`. -/
def CRLF : JSString := ['\r', '\n']

/-- JS `string.split(sep)` for a one-character separator `sep`:
splits on every occurrence; the empty string yields `[""]`. -/
def splitOnChar (sep : Char) : JSString → List JSString
  | [] => [[]]
  | c :: rest =>
    let r := splitOnChar sep rest
    if c = sep then [] :: r
    else
      match r with
      | [] => [[c]]
      | h :: t => (c :: h) :: t

/-- JS `string.replace(pat, '')` for a one-character pattern: removes the
first occurrence of `pat` only (JS `String.prototype.replace` with a string
pattern replaces a single occurrence). -/
def replaceFirst (pat : Char) : JSString → JSString
  | [] => []
  | c :: rest => if c = pat then rest else c :: replaceFirst pat rest

/-- The whitespace characters removed by JS `String.prototype.trim`
(restricted to the ASCII ones that can occur in this protocol). -/
def jsWhitespace (c : Char) : Bool :=
  c = ' ' || c = '\t' || c = '\n' || c = '\r' || c = '\x0b' || c = '\x0c'

/-- Removing leading whitespace, as in JS `trimStart`. -/
def jsTrimLeft (s : JSString) : JSString := s.dropWhile jsWhitespace

/-- Removing trailing whitespace, as in JS `trimEnd`. -/
def jsTrimRight (s : JSString) : JSString :=
  (s.reverse.dropWhile jsWhitespace).reverse

/-- JS `string.trim()`: strip whitespace from both ends. -/
def jsTrim (s : JSString) : JSString := jsTrimLeft (jsTrimRight s)

/-- JS `string.endsWith(suffix)`. -/
def jsEndsWith (s suffix : JSString) : Bool := suffix.isSuffixOf s

/-- `getStickers` from `app.get('/check-rfid-status')`
(src/unnamed/part_000 lines 221–232):

```js
function getStickers(string) {
  if (!string || !string.includes('[')) return []
  string = string.split('[')[1]
  string = string.split(']')[0]
  return string.split(' ')
    .filter(x => x)
    .map(x => x.replace('d', ''))
    .filter(x => x !== '000')
    .map(x => x == '001' ? 'mist' : 'mask')
}
```
-/
def getStickers (s : JSString) : List String :=
  if s.isEmpty || !(s.contains '[') then []
  else
    let s1 := (splitOnChar '[' s).getD 1 []
    let s2 := (splitOnChar ']' s1).getD 0 []
    ((((splitOnChar ' ' s2).filter (fun x => !x.isEmpty)).map
        (replaceFirst 'd')).filter
      (fun x => x ≠ ['0', '0', '0'])).map
      (fun x => if x = ['0', '0', '1'] then "mist" else "mask")

/-- The tokenization step of `getStickers`: the bracketed substring as the
code extracts it (`split('[')[1]` then `split(']')[0]`), split on single
spaces with empty tokens dropped. -/
def stickerTokens (s : JSString) : List JSString :=
  (splitOnChar ' '
      ((splitOnChar ']' ((splitOnChar '[' s).getD 1 [])).getD 0 [])).filter
    (fun x => !x.isEmpty)

/-- Modelled from the spec: the §4.4 pipeline with "strip any literal `d`
character from each token" read as stripping EVERY occurrence of `d`
(claim C5's reading); to be compared with `getStickers`, which strips only
the first occurrence. -/
def getStickersStripAll (s : JSString) : List String :=
  if s.isEmpty || !(s.contains '[') then []
  else
    ((stickerTokens s).map (fun x => x.filter (fun c => c ≠ 'd')) |>.filter
      (fun x => x ≠ ['0', '0', '0'])).map
      (fun x => if x = ['0', '0', '1'] then "mist" else "mask")

/-- The tag table: `"001"` maps to `"mist"`, any other surviving token to
`"mask"`. -/
def tagOf (x : JSString) : String :=
  if x = ['0', '0', '1'] then "mist" else "mask"

/-!
## The command dispatcher

`processQueue` / `queueCommand` (src/unnamed/part_000 lines 111–143,
src/index.js lines 77–108) operate on module-level mutable state
(`commandQueue`, `isProcessingQueue`, `lastCommandTime`) inside Node's
single-threaded event loop.  The embedding makes that state explicit and
models the event loop by a labelled small-step semantics:

* `Label.enqueue` — a caller invokes `queueCommand(command)` (push + the
  synchronous `processQueue` call);
* `Label.advance` — wall-clock time (`Date.now()`) advances;
* `Label.timerFire` — a `setTimeout` callback scheduled by `processQueue`
  runs (allowed at any time ≥ its scheduled time, modelling scheduler
  jitter): it shifts the head entry, records `lastCommandTime`, and issues
  the `port.write`;
* `Label.writeComplete err` — the `port.write` completion callback runs:
  it resolves or rejects the entry, clears `isProcessingQueue`, and calls
  `processQueue` again;
* `Label.directSend` — the non-queued `sendCommand` path issues a
  `port.write` directly.

`pendingTimers` and `outstandingWrites` are lists rather than options so
that "at most one timer / one outstanding write" is a provable property of
the code, not an artifact of the model.  `writeLog` records each
dispatcher-issued write with its issue time; `directLog` records the
direct-path writes.
-/

theorem splitOnChar_of_not_mem {sep : Char} {s : JSString} (h : sep ∉ s) :
    splitOnChar sep s = [s] := by
  induction s with
  | nil => rfl
  | cons a rest ih =>
    simp only [List.mem_cons, not_or] at h
    have hne : ¬ a = sep := fun hac => h.1 hac.symm
    simp [splitOnChar, hne, ih h.2]

theorem replaceFirst_of_not_mem {c : Char} {t : JSString} (h : c ∉ t) :
    replaceFirst c t = t := by
  induction t with
  | nil => rfl
  | cons a rest ih =>
    simp only [List.mem_cons, not_or] at h
    have hne : ¬ a = c := fun hac => h.1 hac.symm
    simp [replaceFirst, hne, ih h.2]

theorem replaceFirst_first_occurrence (c : Char) (pre post : JSString)
    (h : c ∉ pre) : replaceFirst c (pre ++ c :: post) = pre ++ post := by
  induction pre with
  | nil => simp [replaceFirst]
  | cons a rest ih =>
    simp only [List.mem_cons, not_or] at h
    have hne : ¬ a = c := fun hac => h.1 hac.symm
    simp [replaceFirst, hne, ih h.2]

/-- The rate limit: `const RATE_LIMIT_MS = 300`. -/
def RATE_LIMIT_MS : Nat := 300

/-- One element of `commandQueue`: the command string plus the identity of
its pending promise (`resolve`/`reject` pair), numbered in enqueue order. -/
structure QueueEntry where
  id : Nat
  command : JSString
deriving DecidableEq, Repr

/-- How a queued command's promise was settled. -/
inductive Outcome where
  /-- `resolve({ success: true, command: command.trim() })` -/
  | resolved (success : Bool) (command : JSString)
  /-- `reject('Error sending command: ' + err.message)` -/
  | rejected (message : JSString)
deriving DecidableEq, Repr

/-- `'Error sending command: ' + err.message`. -/
def errorText (msg : JSString) : JSString :=
  "Error sending command: ".toList ++ msg

/-- The dispatcher's explicit state (module-level mutables plus the event
loop's pending callbacks and the observable write history). -/
structure DispatcherState where
  /-- `const commandQueue = []` — FIFO of entries not yet shifted. -/
  commandQueue : List QueueEntry
  /-- `let isProcessingQueue = false`. -/
  isProcessingQueue : Bool
  /-- `let lastCommandTime = 0` — set to `Date.now()` at write issue. -/
  lastCommandTime : Nat
  /-- Fire times of `setTimeout` callbacks scheduled by `processQueue`
  and not yet run. -/
  pendingTimers : List Nat
  /-- Dispatcher writes issued whose completion callback has not run. -/
  outstandingWrites : List QueueEntry
  /-- History of dispatcher-issued writes `(issue time, entry)`, oldest
  first. -/
  writeLog : List (Nat × QueueEntry)
  /-- History of direct (`sendCommand`) writes `(issue time, command)`. -/
  directLog : List (Nat × JSString)
  /-- Settled promises `(entry id, outcome)`, in settlement order. -/
  results : List (Nat × Outcome)
  /-- Next entry id to assign. -/
  nextId : Nat
  /-- The current value of `Date.now()`. -/
  now : Nat
deriving DecidableEq, Repr

/-- `processQueue` (src/unnamed/part_000 lines 111–135): return
immediately if busy or the queue is empty; otherwise set the busy flag and
schedule the `setTimeout` body after
`delay = Math.max(0, RATE_LIMIT_MS - (now - lastCommandTime))`. -/
def processQueue (s : DispatcherState) : DispatcherState :=
  if s.isProcessingQueue || s.commandQueue.isEmpty then s
  else
    { s with
      isProcessingQueue := true
      pendingTimers :=
        s.pendingTimers ++
          [s.now + max 0 (RATE_LIMIT_MS - (s.now - s.lastCommandTime))] }

/-- `queueCommand(command)`: push `{command, resolve, reject}` and call
`processQueue()`. -/
def queueCommand (s : DispatcherState) (command : JSString) : DispatcherState :=
  processQueue
    { s with
      commandQueue := s.commandQueue ++ [⟨s.nextId, command⟩]
      nextId := s.nextId + 1 }

/-- Event-loop events of the embedding. -/
inductive Label where
  | enqueue (command : JSString)
  | advance (d : Nat)
  | timerFire
  | writeComplete (err : Option JSString)
  | directSend (command : JSString)
deriving DecidableEq, Repr

/-- One event-loop step; `none` when the event is not enabled. -/
def step (s : DispatcherState) : Label → Option DispatcherState
  | .enqueue command => some (queueCommand s command)
  | .advance d => some { s with now := s.now + d }
  | .timerFire =>
    match s.pendingTimers, s.commandQueue with
    | t :: ts, e :: q =>
      if t ≤ s.now then
        some
          { s with
            pendingTimers := ts
            commandQueue := q
            lastCommandTime := s.now
            outstandingWrites := s.outstandingWrites ++ [e]
            writeLog := s.writeLog ++ [(s.now, e)] }
      else none
    | _, _ => none
  | .writeComplete err =>
    match s.outstandingWrites with
    | e :: rest =>
      let outcome :=
        match err with
        | some m => Outcome.rejected (errorText m)
        | none => Outcome.resolved true (jsTrim e.command)
      some
        (processQueue
          { s with
            outstandingWrites := rest
            results := s.results ++ [(e.id, outcome)]
            isProcessingQueue := false })
    | [] => none
  | .directSend command =>
    some { s with directLog := s.directLog ++ [(s.now, command)] }

/-- Run a list of event-loop events. -/
def run (s : DispatcherState) : List Label → Option DispatcherState
  | [] => some s
  | l :: ls =>
    match step s l with
    | some s' => run s' ls
    | none => none

/-- The state at server start (`commandQueue = []`, flags clear,
`lastCommandTime = 0`), with the clock at an arbitrary `t0`. -/
def initState (t0 : Nat) : DispatcherState :=
  { commandQueue := []
    isProcessingQueue := false
    lastCommandTime := 0
    pendingTimers := []
    outstandingWrites := []
    writeLog := []
    directLog := []
    results := []
    nextId := 0
    now := t0 }

/-- A dispatcher state the program can actually be in. -/
def Reachable (s : DispatcherState) : Prop :=
  ∃ t0 ls, run (initState t0) ls = some s

/-- All invariant facts except the one `processQueue` itself establishes
(`queue_busy`); this is what still holds at the point where `queueCommand`
or the write-completion callback is about to call `processQueue`. -/
structure PreInv (s : DispatcherState) : Prop where
  clock : s.lastCommandTime ≤ s.now
  busy_iff :
    s.isProcessingQueue = true ↔
      (s.pendingTimers ≠ [] ∨ s.outstandingWrites ≠ [])
  single : s.pendingTimers.length + s.outstandingWrites.length ≤ 1
  timer_ge : ∀ t ∈ s.pendingTimers, s.lastCommandTime + RATE_LIMIT_MS ≤ t
  timer_queue : s.pendingTimers ≠ [] → s.commandQueue ≠ []
  last_nil : s.writeLog = [] → s.lastCommandTime = 0
  last_eq : ∀ x ∈ s.writeLog.getLast?, x.1 = s.lastCommandTime
  gap : s.writeLog.Chain' fun a b => a.1 + RATE_LIMIT_MS ≤ b.1
  fifo :
    s.writeLog.map (fun p => p.2.id) ++ s.commandQueue.map QueueEntry.id =
      List.range s.nextId

/-- The full dispatcher invariant. -/
structure DInv (s : DispatcherState) extends PreInv s : Prop where
  queue_busy : s.commandQueue ≠ [] → s.isProcessingQueue = true

theorem dinv_init (t0 : Nat) : DInv (initState t0) := by
  refine ⟨⟨?_, ?_, ?_, ?_, ?_, ?_, ?_, ?_, ?_⟩, ?_⟩ <;> simp [initState]

theorem processQueue_dinv {s : DispatcherState} (h : PreInv s) :
    DInv (processQueue s) := by
  unfold processQueue
  by_cases hg : s.isProcessingQueue = true ∨ s.commandQueue = []
  · have : (s.isProcessingQueue || s.commandQueue.isEmpty) = true := by
      rcases hg with h1 | h1 <;> simp [h1]
    rw [if_pos this]
    refine ⟨h, ?_⟩
    intro hq
    rcases hg with h1 | h1
    · exact h1
    · exact absurd h1 hq
  · push_neg at hg
    obtain ⟨hbusy, hq⟩ := hg
    have hbusy' : s.isProcessingQueue = false := by
      simpa using hbusy
    have : (s.isProcessingQueue || s.commandQueue.isEmpty) = false := by
      simp [hbusy', List.isEmpty_iff, hq]
    rw [if_neg (by simp [this])]
    have hnot : ¬ (s.pendingTimers ≠ [] ∨ s.outstandingWrites ≠ []) := by
      rw [← h.busy_iff]
      simp [hbusy']
    push_neg at hnot
    obtain ⟨ht, ho⟩ := hnot
    refine ⟨⟨h.clock, by simp [ht], ?_, ?_, ?_, h.last_nil, h.last_eq,
      h.gap, h.fifo⟩, ?_⟩
    · simp [ht, ho]
    · intro t htmem
      rw [ht] at htmem
      simp only [List.nil_append, List.mem_singleton] at htmem
      subst htmem
      have := h.clock
      show s.lastCommandTime + RATE_LIMIT_MS ≤
        s.now + max 0 (RATE_LIMIT_MS - (s.now - s.lastCommandTime))
      omega
    · intro _; exact hq
    · intro _; rfl

theorem step_dinv {s s' : DispatcherState} {l : Label} (h : DInv s)
    (hs : step s l = some s') : DInv s' := by
  cases l with
  | enqueue command =>
    simp only [step, Option.some.injEq] at hs
    subst hs
    unfold queueCommand
    apply processQueue_dinv
    refine ⟨h.clock, h.busy_iff, h.single, h.timer_ge, ?_, h.last_nil,
      h.last_eq, h.gap, ?_⟩
    · intro _; simp
    · simp only
      rw [List.map_append, ← List.append_assoc, h.fifo, List.range_succ]
      simp
  | advance d =>
    simp only [step, Option.some.injEq] at hs
    subst hs
    refine ⟨⟨?_, h.busy_iff, h.single, h.timer_ge, h.timer_queue,
      h.last_nil, h.last_eq, h.gap, h.fifo⟩, h.queue_busy⟩
    have := h.clock
    simp only
    omega
  | timerFire =>
    simp only [step] at hs
    split at hs
    case h_2 => simp at hs
    case h_1 t ts e q hpt hq =>
      rw [Option.ite_none_right_eq_some, Option.some.injEq] at hs
      obtain ⟨htle, hs⟩ := hs
      subst hs
      have hsingle := h.single
      rw [hpt] at hsingle
      simp only [List.length_cons] at hsingle
      have hts : ts = [] := by
        cases ts with
        | nil => rfl
        | cons a b => simp at hsingle; omega
      have hout : s.outstandingWrites = [] := by
        cases ho : s.outstandingWrites with
        | nil => rfl
        | cons a b =>
          rw [ho] at hsingle
          simp only [List.length_cons] at hsingle
          exact absurd hsingle (by omega)
      have hbusy : s.isProcessingQueue = true := by
        rw [h.busy_iff, hpt]; left; simp
      have htge : s.lastCommandTime + RATE_LIMIT_MS ≤ t :=
        h.timer_ge t (by rw [hpt]; simp)
      refine ⟨⟨le_refl _, ?_, ?_, ?_, ?_, ?_, ?_, ?_, ?_⟩, ?_⟩
      · simp [hts, hbusy, hout]
      · simp [hts, hout]
      · simp [hts]
      · simp [hts]
      · simp
      · intro x hx
        simp only at hx
        rw [List.getLast?_concat] at hx
        simp only [Option.mem_def, Option.some.injEq] at hx
        subst hx
        rfl
      · simp only
        rw [List.chain'_append]
        refine ⟨h.gap, by simp, ?_⟩
        intro x hx y hy
        simp only [List.head?_cons, Option.mem_def, Option.some.injEq] at hy
        subst hy
        have := h.last_eq x hx
        simp only
        omega
      · simp only
        rw [List.map_append]
        have := h.fifo
        rw [hq] at this
        simp only [List.map_cons] at this
        rw [← this]
        simp
      · simp [hbusy]
  | writeComplete err =>
    simp only [step] at hs
    split at hs
    case h_2 => simp at hs
    case h_1 e rest ho =>
      simp only [Option.some.injEq] at hs
      subst hs
      have hsingle := h.single
      rw [ho] at hsingle
      simp only [List.length_cons] at hsingle
      have hrest : rest = [] := by
        cases rest with
        | nil => rfl
        | cons a b =>
          simp only [List.length_cons] at hsingle
          exact absurd hsingle (by omega)
      have hpt : s.pendingTimers = [] := by
        cases hp : s.pendingTimers with
        | nil => rfl
        | cons a b => rw [hp] at hsingle; simp at hsingle; omega
      apply processQueue_dinv
      exact ⟨h.clock, by simp [hpt, hrest], by simp [hpt, hrest],
        by simp [hpt], by simp [hpt], h.last_nil, h.last_eq, h.gap, h.fifo⟩
  | directSend command =>
    simp only [step, Option.some.injEq] at hs
    subst hs
    exact ⟨⟨h.clock, h.busy_iff, h.single, h.timer_ge, h.timer_queue,
      h.last_nil, h.last_eq, h.gap, h.fifo⟩, h.queue_busy⟩

theorem run_dinv {s s' : DispatcherState} {ls : List Label} (h : DInv s)
    (hs : run s ls = some s') : DInv s' := by
  induction ls generalizing s with
  | nil => simp only [run, Option.some.injEq] at hs; subst hs; exact h
  | cons l ls ih =>
    simp only [run] at hs
    cases hstep : step s l with
    | none => rw [hstep] at hs; exact absurd hs (by simp)
    | some s1 =>
      rw [hstep] at hs
      exact ih (step_dinv h hstep) hs

theorem reachable_dinv {s : DispatcherState} (h : Reachable s) : DInv s := by
  obtain ⟨t0, ls, hrun⟩ := h
  exact run_dinv (dinv_init t0) hrun

theorem processQueue_commandQueue (s : DispatcherState) :
    (processQueue s).commandQueue = s.commandQueue := by
  unfold processQueue; split <;> rfl

theorem processQueue_results (s : DispatcherState) :
    (processQueue s).results = s.results := by
  unfold processQueue; split <;> rfl

theorem processQueue_outstandingWrites (s : DispatcherState) :
    (processQueue s).outstandingWrites = s.outstandingWrites := by
  unfold processQueue; split <;> rfl

theorem processQueue_timers_le (s : DispatcherState) :
    (processQueue s).pendingTimers.length ≤ s.pendingTimers.length + 1 := by
  unfold processQueue; split
  · omega
  · simp

/-- Draining the dispatcher: from any invariant-satisfying state there is a
sequence of event-loop events after which the queue is empty, no write is
outstanding, old results survive, and every entry that was queued or in
flight has been settled with some outcome. -/
theorem drain_all (n : Nat) :
    ∀ s : DispatcherState, DInv s →
      3 * s.commandQueue.length + 2 * s.outstandingWrites.length +
          s.pendingTimers.length ≤ n →
      ∃ ls s', run s ls = some s' ∧
        (∀ x ∈ s.results, x ∈ s'.results) ∧
        s'.commandQueue = [] ∧ s'.outstandingWrites = [] ∧
        ∀ e ∈ s.commandQueue ++ s.outstandingWrites,
          ∃ out, (e.id, out) ∈ s'.results := by
  induction n with
  | zero =>
    intro s h hm
    have hq : s.commandQueue = [] := by
      cases hq : s.commandQueue with
      | nil => rfl
      | cons a b => rw [hq] at hm; simp at hm
    have ho : s.outstandingWrites = [] := by
      cases ho : s.outstandingWrites with
      | nil => rfl
      | cons a b => rw [ho] at hm; simp at hm
    exact ⟨[], s, rfl, fun x hx => hx, hq, ho, by simp [hq, ho]⟩
  | succ n ih =>
    intro s h hm
    cases hout : s.outstandingWrites with
    | cons e rest =>
      -- run the completion callback of the outstanding write
      have hrest : rest = [] := by
        have := h.single
        rw [hout] at this
        cases rest with
        | nil => rfl
        | cons a b => simp only [List.length_cons] at this; omega
      subst hrest
      set s1 := processQueue
        { s with
          outstandingWrites := []
          results :=
            s.results ++ [(e.id, Outcome.resolved true (jsTrim e.command))]
          isProcessingQueue := false } with hs1
      have hstep : step s (.writeComplete none) = some s1 := by
        simp only [step, hout]
      have hinv1 : DInv s1 := step_dinv h hstep
      have hm1 : 3 * s1.commandQueue.length +
          2 * s1.outstandingWrites.length + s1.pendingTimers.length ≤ n := by
        rw [hs1]
        rw [hout] at hm
        simp only [List.length_cons] at hm
        have h1 := processQueue_timers_le
          { s with
            outstandingWrites := ([] : List QueueEntry)
            results :=
              s.results ++ [(e.id, Outcome.resolved true (jsTrim e.command))]
            isProcessingQueue := false }
        rw [processQueue_commandQueue, processQueue_outstandingWrites]
        simp only [List.length_nil] at h1 ⊢
        have h2 := h.single
        rw [hout] at h2
        simp only [List.length_cons] at h2
        omega
      obtain ⟨ls, s', hrun, hmono, hq', ho', hserved⟩ := ih s1 hinv1 hm1
      refine ⟨.writeComplete none :: ls, s', ?_, ?_, hq', ho', ?_⟩
      · simp only [run, hstep]; exact hrun
      · intro x hx
        apply hmono
        rw [hs1, processQueue_results]
        simp only [List.mem_append]
        exact Or.inl hx
      · intro e' he'
        simp only [List.mem_append, List.mem_singleton] at he'
        rcases he' with he' | he'
        · -- still in the queue: served by the induction hypothesis
          apply hserved
          rw [hs1, processQueue_commandQueue, processQueue_outstandingWrites]
          simp only [List.mem_append]
          exact Or.inl he'
        · -- the completed entry itself: its result is already recorded
          subst he'
          refine ⟨Outcome.resolved true (jsTrim e'.command), ?_⟩
          apply hmono
          rw [hs1, processQueue_results]
          simp
    | nil =>
      cases hpt : s.pendingTimers with
      | cons t ts =>
        -- let the pending timer fire (advancing the clock up to its due
        -- time), which issues the write for the head entry
        have hts : ts = [] := by
          have := h.single
          rw [hpt] at this
          cases ts with
          | nil => rfl
          | cons a b => simp only [List.length_cons] at this; omega
        subst hts
        cases hq : s.commandQueue with
        | nil => exact absurd (h.timer_queue (by rw [hpt]; simp)) (by simp [hq])
        | cons e q =>
          set sA : DispatcherState := { s with now := s.now + (t - s.now) }
            with hsA
          have hstepA : step s (.advance (t - s.now)) = some sA := rfl
          set s2 : DispatcherState :=
            { sA with
              pendingTimers := []
              commandQueue := q
              lastCommandTime := sA.now
              outstandingWrites := sA.outstandingWrites ++ [e]
              writeLog := sA.writeLog ++ [(sA.now, e)] } with hs2
          have hstepB : step sA .timerFire = some s2 := by
            have hle : t ≤ sA.now := by rw [hsA]; simp; omega
            simp only [step, hsA, hpt, hq, hle, if_pos]
          have hinv2 : DInv s2 :=
            step_dinv (step_dinv h hstepA) hstepB
          have hm2 : 3 * s2.commandQueue.length +
              2 * s2.outstandingWrites.length + s2.pendingTimers.length ≤
                n := by
            rw [hs2]
            rw [hpt, hq] at hm
            simp only [hsA, hout, List.length_cons, List.length_nil,
              List.length_append] at hm ⊢
            omega
          obtain ⟨ls, s', hrun, hmono, hq', ho', hserved⟩ := ih s2 hinv2 hm2
          refine ⟨.advance (t - s.now) :: .timerFire :: ls, s', ?_, ?_,
            hq', ho', ?_⟩
          · simp only [run, hstepA, hstepB]; exact hrun
          · intro x hx
            apply hmono
            rw [hs2]
            exact hx
          · intro e' he'
            apply hserved
            simp only [List.append_nil, List.mem_cons] at he'
            rw [hs2]
            simp only [hsA, hout, List.nil_append, List.mem_append,
              List.mem_singleton]
            rcases he' with he' | he'
            · exact Or.inr he'
            · exact Or.inl he'
      | nil =>
        -- idle: the queue must already be empty
        have hq : s.commandQueue = [] := by
          by_contra hq
          have hbusy := h.queue_busy hq
          rw [h.busy_iff] at hbusy
          rcases hbusy with h1 | h1
          · exact h1 hpt
          · exact h1 hout
        exact ⟨[], s, rfl, fun x hx => hx, hq, hout, by simp [hq, hout]⟩

/-!
## HTTP handler logic

`POST /send-command` (src/unnamed/part_000 lines 192–209) and
`GET /check-rfid-status` (lines 220–242), with the Express `res` calls
reified as response values.
-/

/-- The response values `POST /send-command` can produce. -/
inductive SendCommandResponse where
  /-- `res.status(400).json({ error: 'Command is required' })` -/
  | badRequest (error : String)
  /-- `res.json(result)` with `result = { success, command }` -/
  | okJson (success : Bool) (command : JSString)
  /-- `res.status(500).json({ error: error.toString() })` -/
  | serverError (error : JSString)
deriving DecidableEq, Repr

/-- JS truthiness of `req.body.command`: `undefined` and the empty string
are falsy (`if (!command)`). -/
def jsFalsy : Option JSString → Bool
  | none => true
  | some s => s.isEmpty

/-- `const formattedCommand = command.endsWith('\r\n') ? command :
command + '\r\n'` (the line in the source is an if-expression with the
same meaning). -/
def formatCommand (command : JSString) : JSString :=
  if jsEndsWith command CRLF then command else command ++ CRLF

/-- The synchronous part of the `POST /send-command` handler: the
missing-command check and terminator normalization.  `Except.ok c` means
`queueCommand(c)` is invoked with the formatted command `c`;
`Except.error r` means the handler responds `r` without enqueueing. -/
def sendCommandRoute (body : Option JSString) :
    Except SendCommandResponse JSString :=
  if jsFalsy body then
    Except.error (SendCommandResponse.badRequest "Command is required")
  else Except.ok (formatCommand (body.getD []))

/-- The asynchronous part of the handler: how the settled promise of
`queueCommand` is turned into the HTTP response
(`res.json(result)` on resolve, `res.status(500).json({error})` on
reject). -/
def sendCommandRespond : Outcome → SendCommandResponse
  | .resolved success command => .okJson success command
  | .rejected message => .serverError message

/-- The response values `GET /check-rfid-status` can produce. -/
inductive RFIDResponse where
  /-- `res.send(getStickers(status))` -/
  | tags (stickers : List String)
  /-- `res.status(500).send('Failed to check RFID status')` -/
  | failed
deriving DecidableEq, Repr

/-- The tail of the `GET /check-rfid-status` handler: `status` is the
value of `await checkRFIDStatus(...)` (`none` models the `null` returned
on error); `if (status)` is JS truthiness, so the empty response string
also takes the 500 branch. -/
def checkRFIDRoute : Option JSString → RFIDResponse
  | none => .failed
  | some status =>
    if status.isEmpty then .failed else .tags (getStickers status)

/-- `` const command = `X${xTalkChannel}B[]\r\n` `` in `checkRFIDStatus`. -/
def checkRFIDCommand (xTalkChannel : JSString) : JSString :=
  'X' :: (xTalkChannel ++ ('B' :: '[' :: (']' :: CRLF)))

/-!
## The broadcast hub

`connectedClients` is a `Set` of sockets, mutated only by the
`wss.on('connection')` / `ws.on('close')` / `ws.on('error')` handlers
(src/unnamed/part_000 lines 249–266); `parser.on('data')` (lines 95–105)
iterates it and sends to every client with `readyState === 1`.
-/

/-- A WebSocket connection handle: its identity and its `readyState`
(`1` = OPEN). -/
structure WSClient where
  id : Nat
  readyState : Nat
deriving DecidableEq, Repr

/-- `client.send(data)` in the `ws` library: delivers when the socket is
OPEN and throws otherwise. -/
def wsSend (c : WSClient) (data : JSString) :
    Except String (Nat × JSString) :=
  if c.readyState = 1 then Except.ok (c.id, data)
  else Except.error "WebSocket is not open"

/-- The body of `parser.on('data', ...)`: iterate `connectedClients` and
send `data` to each client whose `readyState === 1`; other clients are
skipped without calling `send`.  Returns the list of deliveries made. -/
def broadcastData (clients : List WSClient) (data : JSString) :
    Except String (List (Nat × JSString)) :=
  match clients with
  | [] => Except.ok []
  | c :: rest =>
    if c.readyState = 1 then
      match wsSend c data with
      | Except.error e => Except.error e
      | Except.ok d =>
        match broadcastData rest data with
        | Except.error e => Except.error e
        | Except.ok ds => Except.ok (d :: ds)
    else broadcastData rest data

/-- The whole `parser.on('data')` handler: it broadcasts and contains no
`connectedClients.add`/`delete` call, so it returns the subscriber set it
was given (removal happens only in the `close`/`error` handlers). -/
def onSerialData (clients : List WSClient) (data : JSString) :
    Except String (List (Nat × JSString) × List WSClient) :=
  match broadcastData clients data with
  | Except.error e => Except.error e
  | Except.ok ds => Except.ok (ds, clients)

theorem broadcastData_ok (clients : List WSClient) (data : JSString) :
    broadcastData clients data =
      Except.ok
        ((clients.filter fun c => c.readyState = 1).map
          fun c => (c.id, data)) := by
  induction clients with
  | nil => rfl
  | cons c rest ih =>
    by_cases hc : c.readyState = 1
    · simp [broadcastData, wsSend, hc, ih]
    · simp [broadcastData, hc, ih]

/-!
## String lemmas for terminator normalization
-/

theorem jsTrim_append_crlf (c : JSString) : jsTrim (c ++ CRLF) = jsTrim c := by
  unfold jsTrim
  congr 1
  unfold jsTrimRight
  have h1 : (c ++ CRLF).reverse = '\n' :: ('\r' :: c.reverse) := by
    simp [CRLF]
  rw [h1, List.dropWhile_cons, if_pos (by decide), List.dropWhile_cons,
    if_pos (by decide)]

theorem jsTrim_formatCommand (c : JSString) :
    jsTrim (formatCommand c) = jsTrim c := by
  unfold formatCommand
  split
  · rfl
  · exact jsTrim_append_crlf c

/-!
## Demonstration traces and states

Concrete executions of the event-loop semantics, used to witness the
claim theorems on reachable states.
-/

def c1Trace : List Label :=
  [.enqueue ['A'], .advance 300, .timerFire, .writeComplete none,
   .enqueue ['B'], .advance 300, .timerFire, .writeComplete none]

/-- The state reached by `c1Trace` from `initState 0`: two commands
enqueued, written at times 300 and 600, both resolved. -/
def c1Demo : DispatcherState :=
  { commandQueue := []
    isProcessingQueue := false
    lastCommandTime := 600
    pendingTimers := []
    outstandingWrites := []
    writeLog := [(300, ⟨0, ['A']⟩), (600, ⟨1, ['B']⟩)]
    directLog := []
    results := [(0, .resolved true ['A']), (1, .resolved true ['B'])]
    nextId := 2
    now := 600 }

def c2Trace : List Label := [.enqueue ['A'], .advance 300, .timerFire]

/-- The state reached by `c2Trace` from `initState 0`: one write issued at
time 300 and still outstanding. -/
def c2Demo : DispatcherState :=
  { commandQueue := []
    isProcessingQueue := true
    lastCommandTime := 300
    pendingTimers := []
    outstandingWrites := [⟨0, ['A']⟩]
    writeLog := [(300, ⟨0, ['A']⟩)]
    directLog := []
    results := []
    nextId := 1
    now := 300 }

def c3Trace : List Label :=
  [.enqueue ['A'], .enqueue ['B'], .advance 300, .timerFire]

/-- The state reached by `c3Trace` from `initState 0`: the write for entry
0 is outstanding while entry 1 waits in the queue. -/
def c3Demo : DispatcherState :=
  { commandQueue := [⟨1, ['B']⟩]
    isProcessingQueue := true
    lastCommandTime := 300
    pendingTimers := []
    outstandingWrites := [⟨0, ['A']⟩]
    writeLog := [(300, ⟨0, ['A']⟩)]
    directLog := []
    results := []
    nextId := 2
    now := 300 }

/-- The state reached from `initState 0` by a single `queueCommand`: the
busy flag is already set but the write is only scheduled (timer at 300),
not issued. -/
def c7Demo : DispatcherState :=
  { commandQueue := [⟨0, ['A']⟩]
    isProcessingQueue := true
    lastCommandTime := 0
    pendingTimers := [300]
    outstandingWrites := []
    writeLog := []
    directLog := []
    results := []
    nextId := 1
    now := 0 }

/-!
## Claim theorems: the dispatcher
-/

/-- Claim C1: in every reachable dispatcher state, the dispatcher-issued
writes are exactly the first entries in enqueue (FIFO) order (their ids
form `0, 1, 2, …`), the issue times of successive writes are at least
`RATE_LIMIT_MS = 300` ms apart, and `lastCommandTime` records the issue
time of the most recent write — it is set at issue time (the property
holds even while that write is still outstanding, before completion). -/
theorem dispatcher_fifo_and_rate_limit (s : DispatcherState)
    (h : Reachable s) :
    (s.writeLog.map fun p => p.2.id) = List.range s.writeLog.length ∧
    s.writeLog.Chain' (fun a b => a.1 + RATE_LIMIT_MS ≤ b.1) ∧
    (∀ x ∈ s.writeLog.getLast?, x.1 = s.lastCommandTime) := by
  have hinv := reachable_dinv h
  refine ⟨?_, hinv.gap, hinv.last_eq⟩
  have hf := hinv.fifo
  have hlen : s.writeLog.length ≤ s.nextId := by
    have hcong := congrArg List.length hf
    simp only [List.length_append, List.length_map, List.length_range]
      at hcong
    omega
  have htake : (s.writeLog.map fun p => p.2.id) =
      (List.range s.nextId).take s.writeLog.length := by
    rw [← hf, List.take_left' (by simp)]
  rw [htake, List.take_range]
  congr 1
  omega

/-- Witness for C1: the property evaluated on the concrete two-command
trace `c1Trace`. -/
theorem dispatcher_fifo_and_rate_limit_witness :
    (c1Demo.writeLog.map fun p => p.2.id) =
      List.range c1Demo.writeLog.length ∧
    c1Demo.writeLog.Chain' (fun a b => a.1 + RATE_LIMIT_MS ≤ b.1) ∧
    (∀ x ∈ c1Demo.writeLog.getLast?, x.1 = c1Demo.lastCommandTime) :=
  dispatcher_fifo_and_rate_limit c1Demo ⟨0, c1Trace, by decide⟩

/-- Claim C2: in every reachable dispatcher state at most one
dispatcher-issued write is outstanding (indeed at most one timer-or-write
is pending in total), and `processQueue` returns immediately (is the
identity) whenever `isProcessingQueue` is set. -/
theorem dispatcher_single_flight (s : DispatcherState) (h : Reachable s) :
    s.outstandingWrites.length ≤ 1 ∧
    s.pendingTimers.length + s.outstandingWrites.length ≤ 1 ∧
    (s.isProcessingQueue = true → processQueue s = s) := by
  have hinv := reachable_dinv h
  refine ⟨?_, hinv.single, ?_⟩
  · have := hinv.single; omega
  · intro hb
    unfold processQueue
    rw [if_pos (by simp [hb])]

/-- Witness for C2: evaluated on the concrete mid-flight state `c2Demo`. -/
theorem dispatcher_single_flight_witness :
    c2Demo.outstandingWrites.length ≤ 1 ∧
    c2Demo.pendingTimers.length + c2Demo.outstandingWrites.length ≤ 1 ∧
    (c2Demo.isProcessingQueue = true → processQueue c2Demo = c2Demo) :=
  dispatcher_single_flight c2Demo ⟨0, c2Trace, by decide⟩

theorem processQueue_busy_of_not_busy (s : DispatcherState)
    (hb : s.isProcessingQueue = false) :
    (processQueue s).isProcessingQueue = !s.commandQueue.isEmpty := by
  unfold processQueue
  rw [hb]
  cases hq : s.commandQueue.isEmpty <;> simp [hq, hb]

/-- Claim C3: when the serial write for entry `e` fails, exactly that
entry is rejected with `'Error sending command: ' + err.message`, the rest
of the queue is untouched, the busy flag is cleared (and immediately
re-armed exactly when more entries await), and every entry still in the
queue is subsequently serviced: some later event sequence settles it with
an outcome. -/
theorem write_failure_rejects_only_entry (s : DispatcherState)
    (h : Reachable s) (e : QueueEntry) (msg : JSString)
    (ho : s.outstandingWrites = [e]) :
    ∃ s1, step s (.writeComplete (some msg)) = some s1 ∧
      s1.results = s.results ++ [(e.id, Outcome.rejected (errorText msg))] ∧
      s1.commandQueue = s.commandQueue ∧
      s1.isProcessingQueue = !s.commandQueue.isEmpty ∧
      ∀ e' ∈ s.commandQueue, ∃ ls s2, run s1 ls = some s2 ∧
        ∃ out, (e'.id, out) ∈ s2.results := by
  have hinv := reachable_dinv h
  have hstep : step s (.writeComplete (some msg)) = some (processQueue
      { s with
        outstandingWrites := []
        results := s.results ++ [(e.id, Outcome.rejected (errorText msg))]
        isProcessingQueue := false }) := by
    simp only [step, ho]
  refine ⟨_, hstep, ?_, ?_, ?_, ?_⟩
  · rw [processQueue_results]
  · rw [processQueue_commandQueue]
  · rw [processQueue_busy_of_not_busy _ rfl]
  · intro e' he'
    have hinv1 : DInv (processQueue
        { s with
          outstandingWrites := []
          results := s.results ++ [(e.id, Outcome.rejected (errorText msg))]
          isProcessingQueue := false }) := step_dinv hinv hstep
    obtain ⟨ls, s2, hrun, hmono, hq2, ho2, hserved⟩ :=
      drain_all _ _ hinv1 (le_refl _)
    refine ⟨ls, s2, hrun, ?_⟩
    apply hserved
    rw [processQueue_commandQueue, processQueue_outstandingWrites]
    simp only [List.mem_append]
    exact Or.inl he'

/-- Witness for C3: a failing write for entry 0 in the concrete state
`c3Demo` rejects entry 0 only, and the waiting entry 1 is still
serviced. -/
theorem write_failure_rejects_only_entry_witness :
    ∃ s1, step c3Demo (.writeComplete (some "boom".toList)) = some s1 ∧
      s1.results = c3Demo.results ++
        [(0, Outcome.rejected (errorText "boom".toList))] ∧
      s1.commandQueue = c3Demo.commandQueue ∧
      s1.isProcessingQueue = !c3Demo.commandQueue.isEmpty ∧
      ∀ e' ∈ c3Demo.commandQueue, ∃ ls s2, run s1 ls = some s2 ∧
        ∃ out, (e'.id, out) ∈ s2.results :=
  write_failure_rejects_only_entry c3Demo ⟨0, c3Trace, by decide⟩
    ⟨0, ['A']⟩ "boom".toList (by decide)

/-- Counterexample to claim C7 as stated: `c7Demo` is reachable (one
`queueCommand` from the initial state), its busy flag is set, yet no
write is outstanding — indeed no write has ever been issued; the flag is
set during the `setTimeout` delay, before the write. -/
theorem busyFlag_true_without_outstanding_write :
    Reachable c7Demo ∧ c7Demo.isProcessingQueue = true ∧
      c7Demo.outstandingWrites = [] ∧ c7Demo.writeLog = [] :=
  ⟨⟨0, [.enqueue ['A']], by decide⟩, rfl, rfl, rfl⟩

/-- Claim C7 (amended): in every reachable state the busy flag is set iff
a dispatch cycle is in progress — a `setTimeout` delay is pending or a
write is outstanding (not: iff a write is outstanding). -/
theorem busy_iff_dispatch_in_progress (s : DispatcherState)
    (h : Reachable s) :
    s.isProcessingQueue = true ↔
      (s.pendingTimers ≠ [] ∨ s.outstandingWrites ≠ []) :=
  (reachable_dinv h).busy_iff

/-- Witness for the amended C7, evaluated on the concrete state
`c2Demo`. -/
theorem busy_iff_dispatch_in_progress_witness :
    c2Demo.isProcessingQueue = true ↔
      (c2Demo.pendingTimers ≠ [] ∨ c2Demo.outstandingWrites ≠ []) :=
  busy_iff_dispatch_in_progress c2Demo ⟨0, c2Trace, by decide⟩

/-!
## Claim theorems: status parser, broadcast hub, RFID route, direct path
-/

/-- Claim C4: `getStickers` is total by construction (a Lean function on
all of `JSString`, so it never throws), and satisfies the spec's vectors:
the three-tag line, the empty bracket pair, any line without `'['`, and
the `"[d000]"` line. -/
theorem getStickers_spec_vectors :
    getStickers "X008B[d001 d000 d002]".toList = ["mist", "mask"] ∧
    getStickers "X008B[]".toList = [] ∧
    (∀ s : JSString, s.contains '[' = false → getStickers s = []) ∧
    getStickers "[d000]".toList = [] := by
  refine ⟨by decide, by decide, ?_, by decide⟩
  intro s h
  unfold getStickers
  rw [if_pos (by rw [h]; simp)]

/-- Witness for C4: the bracket-free vector instantiated at a concrete
string. -/
theorem getStickers_spec_vectors_witness :
    getStickers "hello".toList = [] :=
  getStickers_spec_vectors.2.2.1 "hello".toList (by decide)

/-- Counterexample to claim C5 as stated: on the line `"[dd001]"` the code
yields `["mask"]`, while stripping EVERY occurrence of `'d'` from the
token (the claim's reading, `getStickersStripAll`) would yield
`["mist"]`. -/
theorem getStickers_strip_every_d_counterexample :
    getStickers "[dd001]".toList = ["mask"] ∧
    getStickersStripAll "[dd001]".toList = ["mist"] ∧
    getStickers "[dd001]".toList ≠ getStickersStripAll "[dd001]".toList :=
  ⟨by decide, by decide, by decide⟩

/-- Claim C5 (amended): `getStickers` applies `replaceFirst 'd'` to every
token before the `"000"` filter and the tag mapping, and `replaceFirst`
removes exactly the FIRST occurrence of the character: it is the identity
on occurrence-free strings and deletes the leftmost occurrence otherwise,
leaving later occurrences intact. -/
theorem getStickers_strips_first_d_only :
    (∀ s, getStickers s =
      (((stickerTokens s).map (replaceFirst 'd')).filter
        fun x => x ≠ ['0', '0', '0']).map tagOf) ∧
    (∀ (c : Char) (t : JSString), c ∉ t → replaceFirst c t = t) ∧
    (∀ (c : Char) (pre post : JSString), c ∉ pre →
      replaceFirst c (pre ++ c :: post) = pre ++ post) := by
  refine ⟨?_, fun c t h => replaceFirst_of_not_mem h,
    fun c pre post h => replaceFirst_first_occurrence c pre post h⟩
  intro s
  by_cases hg : (s.isEmpty || !(s.contains '[')) = true
  · unfold getStickers
    rw [if_pos hg]
    rcases Bool.or_eq_true_iff.mp hg with h | h
    · have : s = [] := by simpa using h
      subst this
      decide
    · have hmem : '[' ∉ s := by
        intro hm
        have hc : s.contains '[' = true := List.elem_iff.mpr hm
        rw [Bool.not_eq_true'] at h
        rw [h] at hc
        exact Bool.noConfusion hc
      have htok : stickerTokens s = [] := by
        unfold stickerTokens
        rw [splitOnChar_of_not_mem hmem]
        rfl
      rw [htok]
      rfl
  · unfold getStickers
    rw [if_neg hg]
    rfl

/-- Witness for the amended C5, evaluated at concrete tokens: the pipeline
identity on the line `"[dd001]"`, identity of `replaceFirst` on a
`d`-free token, and first-occurrence removal in `"xdd1"`. -/
theorem getStickers_strips_first_d_only_witness :
    getStickers "[dd001]".toList =
      (((stickerTokens "[dd001]".toList).map (replaceFirst 'd')).filter
        fun x => x ≠ ['0', '0', '0']).map tagOf ∧
    replaceFirst 'd' ['x'] = ['x'] ∧
    replaceFirst 'd' (['x'] ++ 'd' :: ['d', '1']) = ['x'] ++ ['d', '1'] :=
  ⟨getStickers_strips_first_d_only.1 "[dd001]".toList,
    getStickers_strips_first_d_only.2.1 'd' ['x'] (by decide),
    getStickers_strips_first_d_only.2.2 'd' ['x'] ['d', '1'] (by decide)⟩

/-- Claim C8: broadcasting never throws — it delivers the line to exactly
the clients whose `readyState` is `1` (OPEN) and returns the subscriber
set unchanged; in particular a broadcast to the empty set is a no-op, and
a not-yet-unregistered closed client is silently skipped and not
removed. -/
theorem broadcast_skips_closed_and_never_throws :
    (∀ data, onSerialData [] data = Except.ok ([], [])) ∧
    (∀ clients data, onSerialData clients data =
      Except.ok
        ((clients.filter fun c => c.readyState = 1).map
            fun c => (c.id, data),
          clients)) ∧
    (∀ c data, c.readyState ≠ 1 →
      onSerialData [c] data = Except.ok ([], [c])) := by
  have hall : ∀ clients data, onSerialData clients data =
      Except.ok
        ((clients.filter fun c => c.readyState = 1).map
            fun c => (c.id, data),
          clients) := by
    intro clients data
    unfold onSerialData
    rw [broadcastData_ok]
  refine ⟨fun data => hall [] data, hall, fun c data hc => ?_⟩
  rw [hall [c] data]
  simp [List.filter_cons, hc]

/-- Witness for C8: a broadcast to one CLOSED client (readyState 3)
delivers nothing, throws nothing and keeps the client registered. -/
theorem broadcast_skips_closed_witness :
    onSerialData [⟨7, 3⟩] "X008B[]".toList =
      Except.ok ([], [⟨7, 3⟩]) :=
  broadcast_skips_closed_and_never_throws.2.2 ⟨7, 3⟩ "X008B[]".toList
    (by decide)

/-- Claim C9: the direct `sendCommand` path used by `checkRFIDStatus`
issues its write immediately at the current instant — no queueing, no
timer, no 300 ms spacing — and leaves every piece of dispatcher state
(`commandQueue`, `isProcessingQueue`, `lastCommandTime`, pending timers,
outstanding writes, the dispatcher write log, results, ids, clock)
unchanged; and the status-check command for channel `"008"` is
`"X008B[]\r\n"`. -/
theorem directSend_bypasses_dispatcher (s : DispatcherState)
    (command : JSString) :
    ∃ s', step s (.directSend command) = some s' ∧
      s'.directLog = s.directLog ++ [(s.now, command)] ∧
      s'.commandQueue = s.commandQueue ∧
      s'.isProcessingQueue = s.isProcessingQueue ∧
      s'.lastCommandTime = s.lastCommandTime ∧
      s'.pendingTimers = s.pendingTimers ∧
      s'.outstandingWrites = s.outstandingWrites ∧
      s'.writeLog = s.writeLog ∧
      s'.results = s.results ∧
      s'.nextId = s.nextId ∧
      s'.now = s.now ∧
      checkRFIDCommand "008".toList = "X008B[]\r\n".toList :=
  ⟨_, rfl, rfl, rfl, rfl, rfl, rfl, rfl, rfl, rfl, rfl, rfl, by decide⟩

/-- Claim C10: `GET /check-rfid-status` responds 500 whenever the
status-check result is falsy — both for `null` (a failed check) and for
the empty response line, even though `getStickers` of the empty string is
`[]` — and responds with the parsed tag array exactly when the response
line is non-empty. -/
theorem checkRFID_falsy_is_500 :
    checkRFIDRoute (some []) = RFIDResponse.failed ∧
    getStickers [] = [] ∧
    checkRFIDRoute none = RFIDResponse.failed ∧
    ∀ s : JSString, s ≠ [] →
      checkRFIDRoute (some s) = RFIDResponse.tags (getStickers s) := by
  refine ⟨rfl, rfl, rfl, ?_⟩
  intro s hs
  have hmatch : checkRFIDRoute (some s) =
      if s.isEmpty then RFIDResponse.failed
      else RFIDResponse.tags (getStickers s) := rfl
  rw [hmatch, if_neg (by simp [hs])]

/-- Witness for C10: a non-empty response line gets a 200 with its parsed
tags. -/
theorem checkRFID_falsy_is_500_witness :
    checkRFIDRoute (some "X008B[d001]".toList) =
      RFIDResponse.tags (getStickers "X008B[d001]".toList) :=
  checkRFID_falsy_is_500.2.2.2 "X008B[d001]".toList (by decide)

/-!
## Claim theorems: POST /send-command
-/

/-- Running one `queueCommand` from an idle dispatcher (empty queue, busy
flag clear): the timer fires within `RATE_LIMIT_MS`, the write is issued
and completes, and the entry's promise resolves with
`{success: true, command: command.trim()}`. -/
theorem idle_enqueue_roundtrip (s : DispatcherState) (h : Reachable s)
    (hq : s.commandQueue = []) (hb : s.isProcessingQueue = false)
    (command : JSString) :
    ∃ s', run s [.enqueue command, .advance RATE_LIMIT_MS, .timerFire,
        .writeComplete none] = some s' ∧
      s'.results = s.results ++
        [(s.nextId, Outcome.resolved true (jsTrim command))] := by
  have hno := (reachable_dinv h).busy_iff
  rw [hb] at hno
  have hne : ¬ (s.pendingTimers ≠ [] ∨ s.outstandingWrites ≠ []) := by
    intro hcon
    exact Bool.noConfusion (hno.mpr hcon)
  push_neg at hne
  obtain ⟨hpt, how⟩ := hne
  have h1 : step s (.enqueue command) = some
      { commandQueue := [⟨s.nextId, command⟩]
        isProcessingQueue := true
        lastCommandTime := s.lastCommandTime
        pendingTimers :=
          [s.now + max 0 (RATE_LIMIT_MS - (s.now - s.lastCommandTime))]
        outstandingWrites := []
        writeLog := s.writeLog
        directLog := s.directLog
        results := s.results
        nextId := s.nextId + 1
        now := s.now } := by
    simp [step, queueCommand, processQueue, hq, hb, hpt, how]
  have h2 : step
      { commandQueue := [(⟨s.nextId, command⟩ : QueueEntry)]
        isProcessingQueue := true
        lastCommandTime := s.lastCommandTime
        pendingTimers :=
          [s.now + max 0 (RATE_LIMIT_MS - (s.now - s.lastCommandTime))]
        outstandingWrites := []
        writeLog := s.writeLog
        directLog := s.directLog
        results := s.results
        nextId := s.nextId + 1
        now := s.now } (.advance RATE_LIMIT_MS) = some
      { commandQueue := [⟨s.nextId, command⟩]
        isProcessingQueue := true
        lastCommandTime := s.lastCommandTime
        pendingTimers :=
          [s.now + max 0 (RATE_LIMIT_MS - (s.now - s.lastCommandTime))]
        outstandingWrites := []
        writeLog := s.writeLog
        directLog := s.directLog
        results := s.results
        nextId := s.nextId + 1
        now := s.now + RATE_LIMIT_MS } := rfl
  have hle : s.now + max 0 (RATE_LIMIT_MS - (s.now - s.lastCommandTime)) ≤
      s.now + RATE_LIMIT_MS := by omega
  have h3 : step
      { commandQueue := [(⟨s.nextId, command⟩ : QueueEntry)]
        isProcessingQueue := true
        lastCommandTime := s.lastCommandTime
        pendingTimers :=
          [s.now + max 0 (RATE_LIMIT_MS - (s.now - s.lastCommandTime))]
        outstandingWrites := []
        writeLog := s.writeLog
        directLog := s.directLog
        results := s.results
        nextId := s.nextId + 1
        now := s.now + RATE_LIMIT_MS } .timerFire = some
      { commandQueue := []
        isProcessingQueue := true
        lastCommandTime := s.now + RATE_LIMIT_MS
        pendingTimers := []
        outstandingWrites := [⟨s.nextId, command⟩]
        writeLog := s.writeLog ++ [(s.now + RATE_LIMIT_MS, ⟨s.nextId, command⟩)]
        directLog := s.directLog
        results := s.results
        nextId := s.nextId + 1
        now := s.now + RATE_LIMIT_MS } := by
    simp only [step]
    rw [if_pos hle]
    simp
  have h4 : step
      { commandQueue := []
        isProcessingQueue := true
        lastCommandTime := s.now + RATE_LIMIT_MS
        pendingTimers := []
        outstandingWrites := [(⟨s.nextId, command⟩ : QueueEntry)]
        writeLog := s.writeLog ++ [(s.now + RATE_LIMIT_MS, ⟨s.nextId, command⟩)]
        directLog := s.directLog
        results := s.results
        nextId := s.nextId + 1
        now := s.now + RATE_LIMIT_MS } (.writeComplete none) = some
      { commandQueue := []
        isProcessingQueue := false
        lastCommandTime := s.now + RATE_LIMIT_MS
        pendingTimers := []
        outstandingWrites := []
        writeLog := s.writeLog ++ [(s.now + RATE_LIMIT_MS, ⟨s.nextId, command⟩)]
        directLog := s.directLog
        results := s.results ++
          [(s.nextId, Outcome.resolved true (jsTrim command))]
        nextId := s.nextId + 1
        now := s.now + RATE_LIMIT_MS } := by
    simp [step, processQueue]
  refine ⟨{ commandQueue := []
            isProcessingQueue := false
            lastCommandTime := s.now + RATE_LIMIT_MS
            pendingTimers := []
            outstandingWrites := []
            writeLog :=
              s.writeLog ++ [(s.now + RATE_LIMIT_MS, ⟨s.nextId, command⟩)]
            directLog := s.directLog
            results := s.results ++
              [(s.nextId, Outcome.resolved true (jsTrim command))]
            nextId := s.nextId + 1
            now := s.now + RATE_LIMIT_MS }, ?_, rfl⟩
  simp only [run, h1, h2, h3, h4]

/-- Counterexample to claim C6 as stated: with the command field PRESENT
but equal to the empty string, the handler does not take the
"otherwise" (enqueue) branch — `if (!command)` is a falsiness check, so it
responds 400 and nothing is enqueued. -/
theorem sendCommand_present_empty_counterexample :
    sendCommandRoute (some []) =
      Except.error (SendCommandResponse.badRequest "Command is required") ∧
    ∀ c, sendCommandRoute (some []) ≠ Except.ok c := by
  refine ⟨rfl, fun c hc => ?_⟩
  rw [(rfl : sendCommandRoute (some []) =
    Except.error (SendCommandResponse.badRequest "Command is required"))]
    at hc
  exact Except.noConfusion hc

/-- Claim C6 (amended): `POST /send-command` responds 400 with
`{error: "Command is required"}` and enqueues nothing when the command
field is absent OR the empty string (both are falsy); for any other
command it appends `"\r\n"` exactly when the command does not already end
with it and enqueues the result; a resolved write yields
`{success: true, command: <original command with surrounding whitespace
trimmed>}`, a rejected write yields a 500 with the error message; and
enqueueing `"PING"` on an idle empty queue resolves with
`{success: true, command: "PING"}`. -/
theorem sendCommand_contract :
    (sendCommandRoute none =
      Except.error (SendCommandResponse.badRequest "Command is required")) ∧
    (sendCommandRoute (some []) =
      Except.error (SendCommandResponse.badRequest "Command is required")) ∧
    (∀ command : JSString, command ≠ [] →
      sendCommandRoute (some command) = Except.ok (formatCommand command) ∧
      (jsEndsWith command CRLF = true → formatCommand command = command) ∧
      (jsEndsWith command CRLF = false →
        formatCommand command = command ++ CRLF) ∧
      sendCommandRespond
          (Outcome.resolved true (jsTrim (formatCommand command))) =
        SendCommandResponse.okJson true (jsTrim command)) ∧
    (∀ message, sendCommandRespond (Outcome.rejected message) =
      SendCommandResponse.serverError message) ∧
    (∀ s : DispatcherState, Reachable s → s.commandQueue = [] →
      s.isProcessingQueue = false →
      ∃ s', run s [.enqueue (formatCommand "PING".toList),
          .advance RATE_LIMIT_MS, .timerFire, .writeComplete none] =
            some s' ∧
        s'.results = s.results ++
          [(s.nextId, Outcome.resolved true "PING".toList)]) := by
  refine ⟨rfl, rfl, ?_, fun message => rfl, ?_⟩
  · intro command hc
    refine ⟨?_, ?_, ?_, ?_⟩
    · unfold sendCommandRoute jsFalsy
      rw [if_neg (by simp [hc])]
      rfl
    · intro he
      unfold formatCommand
      rw [if_pos he]
    · intro he
      unfold formatCommand
      rw [if_neg (by simp [he])]
    · unfold sendCommandRespond
      rw [jsTrim_formatCommand]
  · intro s h hq hb
    have hping : jsTrim (formatCommand "PING".toList) = "PING".toList := by
      decide
    obtain ⟨s', hrun, hres⟩ :=
      idle_enqueue_roundtrip s h hq hb (formatCommand "PING".toList)
    rw [hping] at hres
    exact ⟨s', hrun, hres⟩

/-- Witness for the amended C6: the contract evaluated at the concrete
command `"PING"` and the initial dispatcher state. -/
theorem sendCommand_contract_witness :
    (sendCommandRoute (some "PING".toList) =
      Except.ok (formatCommand "PING".toList)) ∧
    ∃ s', run (initState 0) [.enqueue (formatCommand "PING".toList),
        .advance RATE_LIMIT_MS, .timerFire, .writeComplete none] =
          some s' ∧
      s'.results = [(0, Outcome.resolved true "PING".toList)] := by
  constructor
  · exact (sendCommand_contract.2.2.1 "PING".toList (by decide)).1
  · obtain ⟨s', hrun, hres⟩ := sendCommand_contract.2.2.2.2 (initState 0)
      ⟨0, [], rfl⟩ rfl rfl
    exact ⟨s', hrun, by simpa using hres⟩
